import Mathlib

/-!
Verification of the client-side chroma-key removal filter `removeGreenScreen`
(src/services/geminiService.ts, duplicated in the unnamed source part), a
three-pass filter over RGBA 8-bit pixel buffers.

The source operates on a JavaScript `Uint8ClampedArray`: every channel read is
an integer in 0..255, intermediate arithmetic is done on exact JS numbers, and
every store clamps to [0, 255] and rounds to the nearest integer with ties to
even (ECMAScript ToUint8Clamp).  All intermediate values appearing in the
filter are rationals with denominator dividing 20 (halves from `(r+b)/2`,
twentieths from `excess * 0.3`), so the whole computation is embedded exactly
over ℕ/ℤ:

  * `greenStrength = g - Math.max(r, b)` is the integer `(g : ℤ) - max r b`;
  * `greenRatio = g / (avgRB + 1) > c` (for c = 1.8, 1.4, 1.2, with
    `avgRB = (r + b) / 2 > -1`) is compared by cross-multiplying with the
    positive denominator: `g / ((r+b)/2 + 1) > 9/5  ↔  10*g > 9*(r+b+2)`,
    and similarly `7*(r+b+2) < 10*g` for 1.4 and `6*(r+b+2) < 10*g` for 1.2;
  * the Pass-1/Pass-2 store `data[i+1] = avgRB` (or `min(avgRB, g)`) is
    round-half-to-even of `(r+b)/2`, clamped at 255;
  * the Pass-3 store `data[i+1] = avgRB + Math.min(excess * 0.3, 10)` is
    round-half-to-even of `(10*(r+b) + min (3*(2g-r-b)) 200) / 20`, clamped.
    (JS computes `excess * 0.3` in binary64; for every integer channel input
    the float comparison with 10 and the rounded store coincide with the
    exact rational value, since non-tie values are at least 1/20 away from
    the decision boundary while the float error is below 1e-13, and the
    finitely many exact half-integer ties are hit exactly by binary64.)
-/

set_option maxHeartbeats 1000000

namespace ChromaKey

/-- One RGBA pixel of the canvas buffer: four 8-bit channels, stored as
naturals.  Decoded canvas data always satisfies `≤ 255` per channel. -/
structure Pixel where
  r : ℕ
  g : ℕ
  b : ℕ
  a : ℕ
deriving DecidableEq

/-- Out-of-range reads of a `Uint8ClampedArray` return `undefined`; the filter
never actually reads out of range, and we use an all-zero default pixel. -/
def defaultPixel : Pixel := ⟨0, 0, 0, 0⟩

/-- Round `num / den` to the nearest integer, ties to even — the rounding a
`Uint8ClampedArray` store performs (ECMAScript `ToUint8Clamp`). -/
def roundHalfEvenDiv (num den : ℕ) : ℕ :=
  let q := num / den
  let rem := num % den
  if 2 * rem < den then q
  else if den < 2 * rem then q + 1
  else if q % 2 = 0 then q else q + 1

/-- The store `data[i+1] = n / 2` (used for `avgRB = (r + b) / 2` writes):
round half to even, clamped at 255. -/
def storeHalf (n : ℕ) : ℕ := min 255 (roundHalfEvenDiv n 2)

/-- Pass 1, tier 2: `data[i+3] = Math.max(0, 255 - greenStrength * 3)`, as
stored by the clamped array (`Int.toNat` is the `max 0`, `min 255` the
clamp). -/
def tier2Alpha (greenStrength : ℤ) : ℕ := min 255 (255 - 3 * greenStrength).toNat

/-- Pass 1 body for a single pixel (source lines 629–657 of
geminiService.ts): skip `a = 0`; tier 1 `greenStrength > 80 ∨ (g > 180 ∧
greenRatio > 1.8)` sets alpha 0; tier 2 `greenStrength > 40 ∨ (g > 120 ∧
greenRatio > 1.4)` sets graded alpha and replaces green with `avgRB`;
tier 3 `greenStrength > 15 ∨ greenRatio > 1.2` replaces green only.
`greenRatio > c` is encoded by cross-multiplication as explained in the
file header. -/
def pass1Pixel (p : Pixel) : Pixel :=
  if p.a = 0 then p else
  let r := p.r
  let g := p.g
  let b := p.b
  let greenStrength : ℤ := (g : ℤ) - max r b
  if 80 < greenStrength ∨ (180 < g ∧ 9 * (r + b + 2) < 10 * g) then
    { p with a := 0 }
  else if 40 < greenStrength ∨ (120 < g ∧ 7 * (r + b + 2) < 10 * g) then
    { p with g := storeHalf (r + b), a := tier2Alpha greenStrength }
  else if 15 < greenStrength ∨ 6 * (r + b + 2) < 10 * g then
    { p with g := storeHalf (r + b) }
  else p

/-- Pass 3 body for a single pixel (source lines 702–717): for `a > 0`, if
`g > avgRB + 10` (encoded `r + b + 20 < 2*g`) store
`avgRB + Math.min(excess * 0.3, 10)`, i.e. the twentieths value
`(10*(r+b) + min (3*m) 200) / 20` with `m = 2g - (r+b)`, rounded
half-to-even and clamped. -/
def pass3Pixel (p : Pixel) : Pixel :=
  if 0 < p.a then
    let r := p.r
    let g := p.g
    let b := p.b
    if r + b + 20 < 2 * g then
      let m := 2 * g - (r + b)
      { p with g := min 255 (roundHalfEvenDiv (10 * (r + b) + min (3 * m) 200) 20) }
    else p
  else p

/-- The 8 neighbour offsets `(dx, dy)` scanned by Pass 2, in source order
(`dy` outer from -1 to 1, `dx` inner, skipping (0,0)). -/
def neighborOffsets : List (ℤ × ℤ) :=
  [(-1, -1), (0, -1), (1, -1), (-1, 0), (1, 0), (-1, 1), (0, 1), (1, 1)]

/-- Pass 2 neighbour test (source lines 676–688): some 8-neighbour of
`(x, y)` has snapshot alpha `< 128`.  The source computes the flat index
`((y + dy) * width + (x + dx)) * 4`; Pass 2 only evaluates this at interior
positions, where the index is in range. -/
def hasTransparentNeighbor (snapshot : List Pixel) (w : ℕ) (x y : ℕ) : Bool :=
  neighborOffsets.any fun d =>
    decide ((snapshot.getD ((((y : ℤ) + d.2) * (w : ℤ) + ((x : ℤ) + d.1)).toNat) defaultPixel).a < 128)

/-- The positions Pass 2 visits, in loop order: `y` from 1 to `height - 2`
(outer), `x` from 1 to `width - 2` (inner) — the source loops
`for (y = 1; y < height - 1; ...) for (x = 1; x < width - 1; ...)`, so the
outermost rows and columns are never visited. -/
def interiorPositions (w h : ℕ) : List (ℕ × ℕ) :=
  ((List.range (h - 2)).map (· + 1)).flatMap fun y =>
    ((List.range (w - 2)).map (· + 1)).map fun x => (x, y)

/-- Flat buffer index of position `(x, y)`: `y * width + x`. -/
def pidx (w : ℕ) (pos : ℕ × ℕ) : ℕ := pos.2 * w + pos.1

/-- One Pass 2 iteration (source lines 662–698): the current alpha is read
from the LIVE buffer `d` (`data[idx + 3]`), the colour channels and the
neighbour alphas from the frozen snapshot (`tempData`); if the pixel is
visible, has a mostly-transparent neighbour in the snapshot and snapshot
`greenStrength > 5`, the live green channel is set to `Math.min(avgRB, g)`
(computed from snapshot values, stored clamped-rounded). -/
def pass2Step (snapshot : List Pixel) (w : ℕ) (d : List Pixel) (pos : ℕ × ℕ) : List Pixel :=
  let idx := pidx w pos
  let alpha := (d.getD idx defaultPixel).a
  if 0 < alpha then
    let sp := snapshot.getD idx defaultPixel
    if hasTransparentNeighbor snapshot w pos.1 pos.2 then
      if 5 < (sp.g : ℤ) - max sp.r sp.b then
        d.set idx { d.getD idx defaultPixel with
          g := if sp.r + sp.b < 2 * sp.g then storeHalf (sp.r + sp.b) else min 255 sp.g }
      else d
    else d
  else d

/-- A decoded raster image: dimensions plus the flat row-major pixel buffer
(`data[(y * width + x) * 4 ..]` in the source). -/
structure Image where
  width : ℕ
  height : ℕ
  data : List Pixel
deriving DecidableEq

/-- Well-formedness of the decoded buffer: `data.length = width * height`
(automatic for real canvas data). -/
def Image.Wf (img : Image) : Prop := img.data.length = img.width * img.height

/-- Pass 1: the flat loop `for (i = 0; i < data.length; i += 4)` applying
`pass1Pixel` to every pixel in place. -/
def pass1 (img : Image) : Image := { img with data := img.data.map pass1Pixel }

/-- Pass 2: `tempData = new Uint8ClampedArray(data)` freezes Pass 1's
output, then the nested interior loops fold `pass2Step` over the live
buffer (which starts out equal to the snapshot). -/
def pass2Impl (img : Image) : Image :=
  let tempData := img.data
  { img with data := (interiorPositions img.width img.height).foldl (pass2Step tempData img.width) img.data }

/-- Pass 3: the flat loop applying `pass3Pixel` to every pixel. -/
def pass3 (img : Image) : Image := { img with data := img.data.map pass3Pixel }

/-- The complete three-pass filter body of `removeGreenScreen`, pass 1 then
pass 2 then pass 3 over the same buffer. -/
def applyFilter (img : Image) : Image := pass3 (pass2Impl (pass1 img))

/-- The filter as invoked with its numeric `tolerance` parameter (declared
default 40; the in-repo caller `removeBackground` passes 50).  The source
binds `tolerance` but its function body never reads it — faithfully
reflected here by an unused binder. -/
def removeGreenScreenFilter (img : Image) (tolerance : ℕ) : Image := applyFilter img

/-- The two failure modes of `removeGreenScreen`: `img.onerror` rejects with
the image-load error, and a null `canvas.getContext('2d')` rejects with the
canvas-context error (distinct messages in the source). -/
inductive FilterError where
  | imageLoadError
  | canvasContextError
deriving DecidableEq

/-- Control-flow model of the promise body of `removeGreenScreen`: decoding
the source url either fails (`onerror`, modelled as `none`) or yields a
raster image; then the 2D context is either unavailable (reject) or the
three passes run and the re-encoded image resolves.  Each failure is a
single rejection — nothing is retried and no image is produced. -/
def removeGreenScreen (decodedImage : Option Image) (contextOk : Bool) (tolerance : ℕ) :
    Except FilterError Image :=
  match decodedImage with
  | none => Except.error FilterError.imageLoadError
  | some img =>
      if contextOk then Except.ok (removeGreenScreenFilter img tolerance)
      else Except.error FilterError.canvasContextError

/-- Snapshot-based reference semantics of one Pass 2 pixel, written after
the specification's words: the pixel at flat index `idx` (coordinates
`x = idx % w`, `y = idx / w`), when interior, visible, adjacent to a
snapshot pixel with alpha < 128 and of snapshot `greenStrength > 5`, has its
green clamped to `min(avgRB, g)`; every other pixel is untouched.  All
reads come from the frozen snapshot. -/
def pass2SpecPixel (snapshot : List Pixel) (w h : ℕ) (idx : ℕ) : Pixel :=
  let x := idx % w
  let y := idx / w
  let p := snapshot.getD idx defaultPixel
  if 1 ≤ x ∧ x + 1 < w ∧ 1 ≤ y ∧ y + 1 < h ∧ 0 < p.a ∧
      hasTransparentNeighbor snapshot w x y = true ∧ 5 < (p.g : ℤ) - max p.r p.b then
    { p with g := if p.r + p.b < 2 * p.g then storeHalf (p.r + p.b) else min 255 p.g }
  else p

/-- Snapshot-based reference Pass 2: every pixel computed independently from
the frozen input buffer (order-independent by construction). -/
def pass2Spec (img : Image) : Image :=
  { img with
    data := (List.range (img.width * img.height)).map (pass2SpecPixel img.data img.width img.height) }

/-- A solid `#00FF00` (pure green, opaque) image of the given size. -/
def solidGreen (w h : ℕ) : Image := ⟨w, h, List.replicate (w * h) ⟨0, 255, 0, 255⟩⟩

/-- The value of one Pass 2 update at `pos`, as a function of the snapshot
alone (with `fallback` returned when the pixel is not rewritten) — the
pointwise description the fold proofs below establish. -/
def pass2Target (snapshot : List Pixel) (w : ℕ) (pos : ℕ × ℕ) (fallback : Pixel) : Pixel :=
  let sp := snapshot.getD (pidx w pos) defaultPixel
  if 0 < sp.a ∧ hasTransparentNeighbor snapshot w pos.1 pos.2 = true ∧
      5 < (sp.g : ℤ) - max sp.r sp.b then
    { sp with g := if sp.r + sp.b < 2 * sp.g then storeHalf (sp.r + sp.b) else min 255 sp.g }
  else fallback

/-- A pure green opaque pixel, the backdrop colour requested from the
generation service. -/
def gpix : Pixel := ⟨0, 255, 0, 255⟩

/-- A pure green pixel after Pass 1: alpha cut to 0, colour untouched. -/
def gpix0 : Pixel := ⟨0, 255, 0, 0⟩

/-- The specification's 4×4 end-to-end scenario: outer ring pure green, a
2×2 centre subject `(180,120,90,255)` with the pixel at `(1,1)`
spill-tinted `(150,170,80,255)`. -/
def scenario4x4 : Image :=
  ⟨4, 4, [gpix, gpix, gpix, gpix,
          gpix, ⟨150, 170, 80, 255⟩, ⟨180, 120, 90, 255⟩, gpix,
          gpix, ⟨180, 120, 90, 255⟩, ⟨180, 120, 90, 255⟩, gpix,
          gpix, gpix, gpix, gpix]⟩

/-- What the filter actually produces on `scenario4x4` — already reached
after Pass 1; Pass 2 and Pass 3 change nothing on this image. -/
def scenario4x4Expected : Image :=
  ⟨4, 4, [gpix0, gpix0, gpix0, gpix0,
          gpix0, ⟨150, 115, 80, 195⟩, ⟨180, 120, 90, 255⟩, gpix0,
          gpix0, ⟨180, 120, 90, 255⟩, ⟨180, 120, 90, 255⟩, gpix0,
          gpix0, gpix0, gpix0, gpix0]⟩

/-- A 1×1 image whose pixel `(200,120,0,255)` survives Passes 1–2 untouched
and reaches Pass 3 with `avgRB = 100`, `excess = 20`. -/
def pass3CapImage : Image := ⟨1, 1, [⟨200, 120, 0, 255⟩]⟩

/-- A 1×1 image whose pixel `(60,150,60,255)` has `greenStrength = 90`,
between the fixed tier-1 cut (80) and the cut a proportional scaling to
tolerance 50 would give (100). -/
def toleranceImage : Image := ⟨1, 1, [⟨60, 150, 60, 255⟩]⟩

/-- A 1×1 image whose pixel `(100,110,100,255)` matches no tier and fails
the Pass 3 trigger, so the filter returns it unchanged — with green
strictly above both red and blue. -/
def residualGreenImage : Image := ⟨1, 1, [⟨100, 110, 100, 255⟩]⟩

/-- A 2×2 image: the corner pixel `(200,210,200,255)` has
`greenStrength = 10 > 5` and (after Pass 1) three fully transparent
neighbours, yet Pass 2 never visits it — there are no interior pixels. -/
def borderImage : Image := ⟨2, 2, [⟨200, 210, 200, 255⟩, gpix, gpix, gpix]⟩

/-- A 3×3 Pass-1-style buffer: transparent pure-green ring around a centre
`(200,210,200,255)` that meets every Pass 2 rewrite condition. -/
def edgeImage3 : Image :=
  ⟨3, 3, [gpix0, gpix0, gpix0,
          gpix0, ⟨200, 210, 200, 255⟩, gpix0,
          gpix0, gpix0, gpix0]⟩

end ChromaKey

namespace ChromaKey

/-! ### Basic list and index helpers -/

theorem getD_set_eq (l : List Pixel) (i : ℕ) (x : Pixel) (h : i < l.length) :
    (l.set i x).getD i defaultPixel = x := by
  induction l generalizing i with
  | nil => simp at h
  | cons hd tl ih =>
    cases i with
    | zero => rfl
    | succ n => exact ih n (by simpa using h)

theorem getD_set_ne (l : List Pixel) (i j : ℕ) (x : Pixel) (h : i ≠ j) :
    (l.set i x).getD j defaultPixel = l.getD j defaultPixel := by
  induction l generalizing i j with
  | nil => simp [List.set]
  | cons hd tl ih =>
    cases i with
    | zero =>
      cases j with
      | zero => exact absurd rfl h
      | succ m => rfl
    | succ n =>
      cases j with
      | zero => rfl
      | succ m => exact ih n m (by omega)

theorem getD_map_of_fixed (f : Pixel → Pixel) (hf : f defaultPixel = defaultPixel)
    (l : List Pixel) (j : ℕ) :
    (l.map f).getD j defaultPixel = f (l.getD j defaultPixel) := by
  induction l generalizing j with
  | nil => simp [List.getD, hf]
  | cons hd tl ih =>
    cases j with
    | zero => rfl
    | succ n => simpa using ih n

theorem getD_replicate (n i : ℕ) (x : Pixel) :
    (List.replicate n x).getD i defaultPixel = if i < n then x else defaultPixel := by
  induction n generalizing i with
  | zero => simp [List.getD]
  | succ m ih =>
    cases i with
    | zero => simp [List.replicate_succ]
    | succ k =>
      rw [List.replicate_succ, List.getD_cons_succ, ih]
      by_cases hk : k < m
      · rw [if_pos hk, if_pos (by omega)]
      · rw [if_neg hk, if_neg (by omega)]

theorem forall_mem_of_getD (l : List Pixel) (P : Pixel → Prop)
    (h : ∀ j, P (l.getD j defaultPixel)) : ∀ p ∈ l, P p := by
  induction l with
  | nil => intro p hp; cases hp
  | cons hd tl ih =>
    intro p hp
    rcases List.mem_cons.mp hp with rfl | hp'
    · exact h 0
    · exact ih (fun j => h (j + 1)) p hp'

theorem pidx_mod (w x y : ℕ) (hx : x < w) : (y * w + x) % w = x := by
  rw [Nat.add_comm, Nat.add_mul_mod_self_right]
  exact Nat.mod_eq_of_lt hx

theorem pidx_div (w x y : ℕ) (hx : x < w) : (y * w + x) / w = y := by
  rw [Nat.add_comm, Nat.add_mul_div_right _ _ (by omega : 0 < w)]
  rw [Nat.div_eq_of_lt hx]
  omega

theorem pidx_inj (w : ℕ) (p q : ℕ × ℕ) (hp : p.1 < w) (hq : q.1 < w)
    (h : pidx w p = pidx w q) : p = q := by
  rcases p with ⟨px, py⟩
  rcases q with ⟨qx, qy⟩
  simp only [pidx] at h
  have hx : px = qx := by
    have h1 : (py * w + px) % w = px := pidx_mod w px py hp
    have h2 : (qy * w + qx) % w = qx := pidx_mod w qx qy hq
    rw [h] at h1; omega
  have hw : 0 < w := by omega
  have hy : py = qy := by
    have hmul : py * w = qy * w := by omega
    exact Nat.eq_of_mul_eq_mul_right hw hmul
  simp [hx, hy]

theorem pidx_lt (w h : ℕ) (pos : ℕ × ℕ) (hx : pos.1 < w) (hy : pos.2 < h) :
    pidx w pos < w * h := by
  have h1 : pos.2 * w + pos.1 < (pos.2 + 1) * w := by
    rw [Nat.add_mul, Nat.one_mul]; omega
  have h2 : (pos.2 + 1) * w ≤ h * w := Nat.mul_le_mul_right w hy
  calc pidx w pos < (pos.2 + 1) * w := h1
    _ ≤ h * w := h2
    _ = w * h := Nat.mul_comm h w

theorem mem_interiorPositions (w h : ℕ) (pos : ℕ × ℕ) :
    pos ∈ interiorPositions w h ↔
      1 ≤ pos.1 ∧ pos.1 + 1 < w ∧ 1 ≤ pos.2 ∧ pos.2 + 1 < h := by
  rcases pos with ⟨x, y⟩
  simp only [interiorPositions, List.mem_flatMap, List.mem_map, List.mem_range]
  constructor
  · rintro ⟨y1, ⟨ky, hky, rfl⟩, x1, ⟨kx, hkx, rfl⟩, heq⟩
    rw [Prod.mk.injEq] at heq
    obtain ⟨rfl, rfl⟩ := heq
    omega
  · rintro ⟨h1, h2, h3, h4⟩
    exact ⟨y, ⟨y - 1, by omega, by omega⟩, x, ⟨x - 1, by omega, by omega⟩, by simp⟩

end ChromaKey

namespace ChromaKey

/-! ### Pass 2: the sequential fold computes the snapshot-based pointwise value -/

theorem pass2Step_length (snap : List Pixel) (w : ℕ) (d : List Pixel) (pos : ℕ × ℕ) :
    (pass2Step snap w d pos).length = d.length := by
  simp only [pass2Step]
  split_ifs <;> simp [List.length_set]

theorem pass2Step_getD_ne (snap : List Pixel) (w : ℕ) (d : List Pixel) (pos : ℕ × ℕ) (j : ℕ)
    (h : pidx w pos ≠ j) :
    (pass2Step snap w d pos).getD j defaultPixel = d.getD j defaultPixel := by
  simp only [pass2Step]
  split_ifs <;> first | rfl | exact getD_set_ne d _ j _ h

theorem pass2Step_rba (snap : List Pixel) (w : ℕ) (d : List Pixel) (pos : ℕ × ℕ) (j : ℕ) :
    ((pass2Step snap w d pos).getD j defaultPixel).r = (d.getD j defaultPixel).r ∧
    ((pass2Step snap w d pos).getD j defaultPixel).b = (d.getD j defaultPixel).b ∧
    ((pass2Step snap w d pos).getD j defaultPixel).a = (d.getD j defaultPixel).a := by
  by_cases hj : pidx w pos = j
  · subst hj
    have key : ∀ gv : ℕ,
        ((d.set (pidx w pos) { d.getD (pidx w pos) defaultPixel with g := gv }).getD
            (pidx w pos) defaultPixel).r = (d.getD (pidx w pos) defaultPixel).r ∧
        ((d.set (pidx w pos) { d.getD (pidx w pos) defaultPixel with g := gv }).getD
            (pidx w pos) defaultPixel).b = (d.getD (pidx w pos) defaultPixel).b ∧
        ((d.set (pidx w pos) { d.getD (pidx w pos) defaultPixel with g := gv }).getD
            (pidx w pos) defaultPixel).a = (d.getD (pidx w pos) defaultPixel).a := by
      intro gv
      by_cases hlen : pidx w pos < d.length
      · rw [getD_set_eq _ _ _ hlen]
        exact ⟨rfl, rfl, rfl⟩
      · rw [List.set_eq_of_length_le (by omega)]
        exact ⟨rfl, rfl, rfl⟩
    simp only [pass2Step]
    split_ifs <;> first | exact ⟨rfl, rfl, rfl⟩ | exact key _
  · rw [pass2Step_getD_ne snap w d pos j hj]
    exact ⟨rfl, rfl, rfl⟩

theorem pass2Step_getD_eq (snap : List Pixel) (w : ℕ) (d : List Pixel) (pos : ℕ × ℕ)
    (hidx : pidx w pos < d.length)
    (hr : (d.getD (pidx w pos) defaultPixel).r = (snap.getD (pidx w pos) defaultPixel).r)
    (hb : (d.getD (pidx w pos) defaultPixel).b = (snap.getD (pidx w pos) defaultPixel).b)
    (ha : (d.getD (pidx w pos) defaultPixel).a = (snap.getD (pidx w pos) defaultPixel).a) :
    (pass2Step snap w d pos).getD (pidx w pos) defaultPixel =
      pass2Target snap w pos (d.getD (pidx w pos) defaultPixel) := by
  simp only [pass2Step, pass2Target, ha]
  split_ifs <;> first | rfl | tauto | rw [getD_set_eq _ _ _ hidx, hr, hb]

theorem pass2Target_idem (snap : List Pixel) (w : ℕ) (pos : ℕ × ℕ) (f : Pixel) :
    pass2Target snap w pos (pass2Target snap w pos f) = pass2Target snap w pos f := by
  simp only [pass2Target]
  split_ifs <;> rfl

theorem foldl_pass2Step_length (snap : List Pixel) (w : ℕ) (ps : List (ℕ × ℕ)) (d : List Pixel) :
    (ps.foldl (pass2Step snap w) d).length = d.length := by
  induction ps generalizing d with
  | nil => rfl
  | cons p0 rest ih => rw [List.foldl_cons, ih, pass2Step_length]

theorem foldl_pass2Step_rba (snap : List Pixel) (w : ℕ) (ps : List (ℕ × ℕ)) (d : List Pixel)
    (j : ℕ) :
    ((ps.foldl (pass2Step snap w) d).getD j defaultPixel).r = (d.getD j defaultPixel).r ∧
    ((ps.foldl (pass2Step snap w) d).getD j defaultPixel).b = (d.getD j defaultPixel).b ∧
    ((ps.foldl (pass2Step snap w) d).getD j defaultPixel).a = (d.getD j defaultPixel).a := by
  induction ps generalizing d with
  | nil => exact ⟨rfl, rfl, rfl⟩
  | cons p0 rest ih =>
    rw [List.foldl_cons]
    have h1 := pass2Step_rba snap w d p0 j
    have h2 := ih (pass2Step snap w d p0)
    exact ⟨h2.1.trans h1.1, h2.2.1.trans h1.2.1, h2.2.2.trans h1.2.2⟩

theorem foldl_pass2Step_untouched (snap : List Pixel) (w : ℕ) (ps : List (ℕ × ℕ))
    (d : List Pixel) (j : ℕ) (h : ∀ pos ∈ ps, pidx w pos ≠ j) :
    (ps.foldl (pass2Step snap w) d).getD j defaultPixel = d.getD j defaultPixel := by
  induction ps generalizing d with
  | nil => rfl
  | cons p0 rest ih =>
    rw [List.foldl_cons, ih _ (fun q hq => h q (List.mem_cons_of_mem p0 hq)),
      pass2Step_getD_ne snap w d p0 j (h p0 (List.mem_cons_self p0 rest))]

theorem foldl_pass2Step_touched (snap : List Pixel) (w : ℕ) (ps : List (ℕ × ℕ))
    (d : List Pixel) (pos : ℕ × ℕ)
    (hmem : pos ∈ ps)
    (hx : ∀ q ∈ ps, q.1 < w)
    (hidx : ∀ q ∈ ps, pidx w q < snap.length)
    (hlen : d.length = snap.length)
    (hagree : ∀ k, (d.getD k defaultPixel).r = (snap.getD k defaultPixel).r ∧
                   (d.getD k defaultPixel).b = (snap.getD k defaultPixel).b ∧
                   (d.getD k defaultPixel).a = (snap.getD k defaultPixel).a) :
    (ps.foldl (pass2Step snap w) d).getD (pidx w pos) defaultPixel =
      pass2Target snap w pos (d.getD (pidx w pos) defaultPixel) := by
  induction ps generalizing d with
  | nil => cases hmem
  | cons p0 rest ih =>
    rw [List.foldl_cons]
    have hstep : (pass2Step snap w d p0).getD (pidx w p0) defaultPixel =
        pass2Target snap w p0 (d.getD (pidx w p0) defaultPixel) :=
      pass2Step_getD_eq snap w d p0
        (by rw [hlen]; exact hidx p0 (List.mem_cons_self p0 rest))
        (hagree _).1 (hagree _).2.1 (hagree _).2.2
    have hlen' : (pass2Step snap w d p0).length = snap.length := by
      rw [pass2Step_length]; exact hlen
    have hagree' : ∀ k, ((pass2Step snap w d p0).getD k defaultPixel).r =
          (snap.getD k defaultPixel).r ∧
        ((pass2Step snap w d p0).getD k defaultPixel).b = (snap.getD k defaultPixel).b ∧
        ((pass2Step snap w d p0).getD k defaultPixel).a = (snap.getD k defaultPixel).a := by
      intro k
      have h1 := pass2Step_rba snap w d p0 k
      have h2 := hagree k
      exact ⟨h1.1.trans h2.1, h1.2.1.trans h2.2.1, h1.2.2.trans h2.2.2⟩
    rcases List.mem_cons.mp hmem with heq | hmem'
    · subst heq
      by_cases hrest : pos ∈ rest
      · rw [ih (pass2Step snap w d pos) hrest
          (fun q hq => hx q (List.mem_cons_of_mem pos hq))
          (fun q hq => hidx q (List.mem_cons_of_mem pos hq)) hlen' hagree']
        rw [hstep, pass2Target_idem]
      · have hne : ∀ q ∈ rest, pidx w q ≠ pidx w pos := by
          intro q hq hqe
          exact hrest (pidx_inj w q pos (hx q (List.mem_cons_of_mem pos hq))
            (hx pos (List.mem_cons_self pos rest)) hqe ▸ hq)
        rw [foldl_pass2Step_untouched snap w rest _ _ hne, hstep]
    · rw [ih (pass2Step snap w d p0) hmem'
        (fun q hq => hx q (List.mem_cons_of_mem p0 hq))
        (fun q hq => hidx q (List.mem_cons_of_mem p0 hq)) hlen' hagree']
      by_cases hpp : pidx w p0 = pidx w pos
      · have hp0 : p0 = pos := pidx_inj w p0 pos (hx p0 (List.mem_cons_self p0 rest))
          (hx pos (List.mem_cons_of_mem p0 hmem')) hpp
        subst hp0
        rw [hstep, pass2Target_idem]
      · rw [pass2Step_getD_ne snap w d p0 _ hpp]

end ChromaKey

namespace ChromaKey

theorem pass2Impl_getD (img : Image) (hwf : img.Wf) (j : ℕ) :
    (pass2Impl img).data.getD j defaultPixel =
      pass2SpecPixel img.data img.width img.height j := by
  have hdata : (pass2Impl img).data =
      (interiorPositions img.width img.height).foldl (pass2Step img.data img.width) img.data := rfl
  by_cases hj : 1 ≤ j % img.width ∧ j % img.width + 1 < img.width ∧
      1 ≤ j / img.width ∧ j / img.width + 1 < img.height
  · have hpos : ((j % img.width, j / img.width) : ℕ × ℕ) ∈
        interiorPositions img.width img.height := by
      rw [mem_interiorPositions]
      exact ⟨hj.1, hj.2.1, hj.2.2.1, hj.2.2.2⟩
    have hdec : pidx img.width (j % img.width, j / img.width) = j := by
      simp only [pidx]
      rw [Nat.mul_comm]
      exact Nat.div_add_mod j img.width
    have hfold := foldl_pass2Step_touched img.data img.width
      (interiorPositions img.width img.height) img.data (j % img.width, j / img.width) hpos
      (fun q hq => by have := (mem_interiorPositions _ _ q).mp hq; omega)
      (fun q hq => by
        have hm := (mem_interiorPositions _ _ q).mp hq
        rw [hwf]
        exact pidx_lt img.width img.height q (by omega) (by omega))
      rfl (fun k => ⟨rfl, rfl, rfl⟩)
    rw [hdec] at hfold
    rw [hdata, hfold]
    simp only [pass2Target, pass2SpecPixel, hdec]
    split_ifs <;> first | rfl | tauto
  · have hnm : ∀ pos ∈ interiorPositions img.width img.height, pidx img.width pos ≠ j := by
      intro pos hp heq
      have hm := (mem_interiorPositions _ _ pos).mp hp
      have h1 : j % img.width = pos.1 := by
        rw [← heq]; exact pidx_mod _ _ _ (by omega)
      have h2 : j / img.width = pos.2 := by
        rw [← heq]; exact pidx_div _ _ _ (by omega)
      exact hj ⟨by omega, by omega, by omega, by omega⟩
    rw [hdata, foldl_pass2Step_untouched _ _ _ _ _ hnm]
    simp only [pass2SpecPixel]
    rw [if_neg (by tauto)]

theorem pass2Impl_rba (img : Image) (j : ℕ) :
    ((pass2Impl img).data.getD j defaultPixel).r = (img.data.getD j defaultPixel).r ∧
    ((pass2Impl img).data.getD j defaultPixel).b = (img.data.getD j defaultPixel).b ∧
    ((pass2Impl img).data.getD j defaultPixel).a = (img.data.getD j defaultPixel).a :=
  foldl_pass2Step_rba img.data img.width (interiorPositions img.width img.height) img.data j

theorem pass1Pixel_default : pass1Pixel defaultPixel = defaultPixel := by decide

theorem pass3Pixel_default : pass3Pixel defaultPixel = defaultPixel := by decide

theorem pass1Pixel_r (p : Pixel) : (pass1Pixel p).r = p.r := by
  simp only [pass1Pixel]
  split_ifs <;> rfl

theorem pass1Pixel_b (p : Pixel) : (pass1Pixel p).b = p.b := by
  simp only [pass1Pixel]
  split_ifs <;> rfl

theorem pass3Pixel_r (p : Pixel) : (pass3Pixel p).r = p.r := by
  simp only [pass3Pixel]
  split_ifs <;> rfl

theorem pass3Pixel_b (p : Pixel) : (pass3Pixel p).b = p.b := by
  simp only [pass3Pixel]
  split_ifs <;> rfl

theorem pass3Pixel_a (p : Pixel) : (pass3Pixel p).a = p.a := by
  simp only [pass3Pixel]
  split_ifs <;> rfl

theorem pass3Pixel_processed (p : Pixel) (ha : 0 < p.a) (hg : p.r + p.b + 20 < 2 * p.g) :
    pass3Pixel p = { p with
      g := min 255 (roundHalfEvenDiv (10 * (p.r + p.b) + min (3 * (2 * p.g - (p.r + p.b))) 200) 20) } := by
  simp only [pass3Pixel]
  rw [if_pos ha, if_pos hg]

theorem pass3Pixel_skipped (p : Pixel) (h : p.a = 0 ∨ ¬(p.r + p.b + 20 < 2 * p.g)) :
    pass3Pixel p = p := by
  simp only [pass3Pixel]
  rcases h with h | h
  · rw [if_neg (by omega)]
  · split_ifs <;> rfl

theorem roundHalfEvenDiv20_bounds (num : ℕ) :
    40 * roundHalfEvenDiv num 20 ≤ 2 * num + 20 ∧
    2 * num ≤ 40 * roundHalfEvenDiv num 20 + 20 := by
  simp only [roundHalfEvenDiv]
  split_ifs <;> omega

end ChromaKey

namespace ChromaKey

/-! ### Claim theorems -/

/-- C1, counterexample.  Pass 3 sets `g := avgRB + min(excess*0.3, 10)`, not
`g - min(excess*0.3, 10)`: on the 1×1 image with pixel `(200,120,0,255)`
(which reaches Pass 3 untouched, with `avgRB = 100`, `excess = 20`) the
green channel drops from 120 to 106, a reduction of 14 > 10, refuting the
claim that the Pass 3 green reduction is at most 10 units. -/
theorem c1_counterexample :
    (pass2Impl (pass1 pass3CapImage)).data.getD 0 defaultPixel = ⟨200, 120, 0, 255⟩ ∧
    0 < (255 : ℕ) ∧ 200 + 0 + 20 < 2 * 120 ∧
    (applyFilter pass3CapImage).data.getD 0 defaultPixel = ⟨200, 106, 0, 255⟩ ∧
    106 + 10 < 120 := by decide

/-- C1, amended.  For every pixel Pass 3 processes (alpha > 0 and
`G > avgRB + 10`, i.e. `r + b + 20 < 2g`, with 8-bit red/blue), it is the
RESIDUAL green excess over `avgRB` — not the reduction — that is capped at
10: afterwards the green lies between `avgRB - 1/2` and `avgRB + 21/2`
(stated doubled: `r + b - 1 ≤ 2·g' ≤ r + b + 21`), never above its old
value; the reduction itself is `excess - min(excess*0.3, 10)` and is
unbounded. -/
theorem c1_pass3_residual_cap (p : Pixel) (ha : 0 < p.a) (hg : p.r + p.b + 20 < 2 * p.g)
    (hr : p.r ≤ 255) (hb : p.b ≤ 255) :
    (pass3Pixel p).g ≤ p.g ∧ 2 * (pass3Pixel p).g ≤ p.r + p.b + 21 ∧
    p.r + p.b ≤ 2 * (pass3Pixel p).g + 1 := by
  rw [pass3Pixel_processed p ha hg]
  have hB := roundHalfEvenDiv20_bounds (10 * (p.r + p.b) + min (3 * (2 * p.g - (p.r + p.b))) 200)
  dsimp only
  omega

/-- C1, witness: the amended bound evaluated on the pixel
`(100,120,100,255)`, which Pass 3 takes to green 106. -/
theorem c1_witness :
    0 < (255 : ℕ) ∧ 100 + 100 + 20 < 2 * 120 ∧
    ((pass3Pixel ⟨100, 120, 100, 255⟩).g ≤ 120 ∧
      2 * (pass3Pixel ⟨100, 120, 100, 255⟩).g ≤ 100 + 100 + 21 ∧
      100 + 100 ≤ 2 * (pass3Pixel ⟨100, 120, 100, 255⟩).g + 1) := by
  refine ⟨by decide, by decide, ?_⟩
  exact c1_pass3_residual_cap ⟨100, 120, 100, 255⟩ (by decide) (by decide) (by decide) (by decide)

/-- C2, counterexample.  The pixel `(60,150,60,255)` has
`greenStrength = 90`; under the claimed proportional scaling, tolerance 40
keys it away in tier 1 (thresholds 80/40) while tolerance 50 (thresholds
100/50) would put it in tier 2 and replace its green with `avgRB = 60` —
but the filter output is identical at both tolerances, with the green
channel left at 150: the thresholds do not scale and the output does not
depend on the tolerance. -/
theorem c2_counterexample :
    removeGreenScreenFilter toleranceImage 40 = removeGreenScreenFilter toleranceImage 50 ∧
    ((removeGreenScreenFilter toleranceImage 50).data.getD 0 defaultPixel).g = 150 ∧
    ((removeGreenScreenFilter toleranceImage 50).data.getD 0 defaultPixel).a = 0 := by decide

/-- C2, amended.  `removeGreenScreen` accepts a numeric tolerance (declared
default 40; the in-repo caller passes 50) but its body never reads it: the
tier-1/tier-2 thresholds are the fixed constants 80/40, 180/120, 1.8/1.4,
and the output image is independent of the tolerance argument. -/
theorem c2_tolerance_unread (img : Image) (t1 t2 : ℕ) :
    removeGreenScreenFilter img t1 = removeGreenScreenFilter img t2 := rfl

/-- C3, counterexample.  The pixel `(100,110,100,255)` matches no Pass 1
tier (`greenStrength = 10 ≤ 15`, `greenRatio ≈ 1.089 ≤ 1.2`), has no Pass 2
trigger in a 1×1 image, and fails the Pass 3 test (`110 ≤ avgRB + 10`), so
the filter returns it unchanged: an output pixel with alpha 255 whose green
channel strictly exceeds both red and blue — a (mild) green-dominant hue
survives, refuting the strict despill invariant. -/
theorem c3_counterexample :
    (applyFilter residualGreenImage).data.getD 0 defaultPixel = ⟨100, 110, 100, 255⟩ ∧
    0 < (255 : ℕ) ∧ max 100 100 < (110 : ℕ) := by decide

/-- C3, amended.  The despill invariant holds in the bounded form the code
actually enforces: after all three passes, every pixel with alpha > 0 has
`G ≤ avgRB + 10.5` (stated doubled: `2·G ≤ R + B + 21`) — green may still
exceed `max(R, B)` by up to about 10, but no more. -/
theorem c3_despill_bound (img : Image) (q : Pixel)
    (hq : q ∈ (applyFilter img).data) (ha : 0 < q.a) :
    2 * q.g ≤ q.r + q.b + 21 := by
  have hq' : q ∈ (pass2Impl (pass1 img)).data.map pass3Pixel := hq
  obtain ⟨p, hp, rfl⟩ := List.mem_map.mp hq'
  by_cases h1 : 0 < p.a
  · by_cases h2 : p.r + p.b + 20 < 2 * p.g
    · rw [pass3Pixel_processed p h1 h2]
      have hB := roundHalfEvenDiv20_bounds
        (10 * (p.r + p.b) + min (3 * (2 * p.g - (p.r + p.b))) 200)
      dsimp only
      omega
    · rw [pass3Pixel_skipped p (Or.inr h2)]
      omega
  · rw [pass3Pixel_skipped p (Or.inl (by omega))] at ha ⊢
    omega

/-- C3, witness: the amended bound evaluated at the surviving pixel of
`residualGreenImage`. -/
theorem c3_witness :
    (⟨100, 110, 100, 255⟩ : Pixel) ∈ (applyFilter residualGreenImage).data ∧
    2 * 110 ≤ 100 + 100 + 21 :=
  ⟨by decide, c3_despill_bound residualGreenImage ⟨100, 110, 100, 255⟩ (by decide) (by decide)⟩

/-- C5, counterexample.  In the 4×4 end-to-end scenario the spill-tinted
pixel `(150,170,80,255)` is caught already by Pass 1's tier 2
(`G = 170 > 120` and `greenRatio = 170/116 > 1.4`): after Pass 1 it is
`(150,115,80,195)` — green already at `avgRB = 115` and alpha lowered to
195 — and Pass 2 then changes nothing at all on this image, refuting the
claim that the despill of that pixel happens in Pass 2. -/
theorem c5_counterexample :
    (pass1 scenario4x4).data.getD 5 defaultPixel = ⟨150, 115, 80, 195⟩ ∧
    pass2Impl (pass1 scenario4x4) = pass1 scenario4x4 := by decide

/-- C5, amended.  On the 4×4 scenario: after Pass 1 every outer-ring pixel
has alpha 0, the spill-tinted pixel is despilled by Pass 1's tier 2 to
`(150,115,80,195)` (green reduced to `avgRB = 115`, alpha graded to 195),
and the pure subject pixels `(180,120,90,255)` are unchanged; Passes 2 and
3 change nothing, so this is also the final output. -/
theorem c5_end_to_end :
    pass1 scenario4x4 = scenario4x4Expected ∧
    applyFilter scenario4x4 = scenario4x4Expected := by decide

/-- C8, confirmed.  The pixel `(100,160,100,255)` has
`greenStrength = 160 - max(100,100) = 60 > 40`, so Pass 1's tier 2 sets
alpha to `max(0, 255 - 60*3) = 75` and replaces green with `avgRB = 100`. -/
theorem c8_tier2_graded_alpha :
    (160 : ℤ) - max (100 : ℤ) (100 : ℤ) = 60 ∧
    pass1Pixel ⟨100, 160, 100, 255⟩ = ⟨100, 100, 100, 75⟩ := by decide

end ChromaKey

namespace ChromaKey

theorem pass2Spec_getD (img : Image) (j : ℕ) (hj : j < img.width * img.height) :
    (pass2Spec img).data.getD j defaultPixel =
      pass2SpecPixel img.data img.width img.height j := by
  simp only [pass2Spec]
  rw [List.getD_eq_getElem _ _ (by simpa using hj)]
  simp [List.getElem_map, List.getElem_range]

/-- C4, counterexample.  The corner pixel `(200,210,200,255)` of a 2×2
image survives Pass 1 untouched, has (after Pass 1) three fully transparent
8-neighbours and `greenStrength = 10 > 5` — every condition of the claim —
yet Pass 2 leaves the whole image unchanged (its loops run `y` and `x` from
1 to `dimension - 2`, so a 2×2 image has no visited position at all): the
green stays 210 where the claimed clamp would store
`min(avgRB, G) = 200`. -/
theorem c4_counterexample :
    ((pass1 borderImage).data.getD 0 defaultPixel).a = 255 ∧
    ((pass1 borderImage).data.getD 3 defaultPixel).a < 128 ∧
    hasTransparentNeighbor (pass1 borderImage).data 2 0 0 = true ∧
    5 < (((pass1 borderImage).data.getD 0 defaultPixel).g : ℤ) -
      max ((pass1 borderImage).data.getD 0 defaultPixel).r
        ((pass1 borderImage).data.getD 0 defaultPixel).b ∧
    pass2Impl (pass1 borderImage) = pass1 borderImage ∧
    ((pass2Impl (pass1 borderImage)).data.getD 0 defaultPixel).g = 210 ∧
    storeHalf (200 + 200) = 200 := by decide

/-- C4, amended.  Pass 2 rewrites exactly the INTERIOR pixels
(`1 ≤ x ≤ width-2`, `1 ≤ y ≤ height-2`) that have live alpha > 0, an
8-neighbour with snapshot alpha < 128 and snapshot `greenStrength > 5`,
clamping their green to `min(avgRB, G)`; every pixel in the outermost rows
and columns — and every pixel failing a condition — is left unchanged. -/
theorem c4_pass2_interior_despill (img : Image) (hwf : img.Wf) :
    (∀ x y : ℕ, 1 ≤ x → x + 1 < img.width → 1 ≤ y → y + 1 < img.height →
      (pass2Impl img).data.getD (y * img.width + x) defaultPixel =
        (if 0 < (img.data.getD (y * img.width + x) defaultPixel).a ∧
            hasTransparentNeighbor img.data img.width x y = true ∧
            5 < ((img.data.getD (y * img.width + x) defaultPixel).g : ℤ) -
              max (img.data.getD (y * img.width + x) defaultPixel).r
                (img.data.getD (y * img.width + x) defaultPixel).b then
          { img.data.getD (y * img.width + x) defaultPixel with
            g := if (img.data.getD (y * img.width + x) defaultPixel).r +
                  (img.data.getD (y * img.width + x) defaultPixel).b <
                  2 * (img.data.getD (y * img.width + x) defaultPixel).g then
                storeHalf ((img.data.getD (y * img.width + x) defaultPixel).r +
                  (img.data.getD (y * img.width + x) defaultPixel).b)
              else min 255 (img.data.getD (y * img.width + x) defaultPixel).g }
        else img.data.getD (y * img.width + x) defaultPixel)) ∧
    (∀ j : ℕ, ¬(1 ≤ j % img.width ∧ j % img.width + 1 < img.width ∧
        1 ≤ j / img.width ∧ j / img.width + 1 < img.height) →
      (pass2Impl img).data.getD j defaultPixel = img.data.getD j defaultPixel) := by
  constructor
  · intro x y hx1 hx2 hy1 hy2
    rw [pass2Impl_getD img hwf (y * img.width + x)]
    simp only [pass2SpecPixel, pidx_mod img.width x y (by omega),
      pidx_div img.width x y (by omega)]
    by_cases hc : 0 < (img.data.getD (y * img.width + x) defaultPixel).a ∧
        hasTransparentNeighbor img.data img.width x y = true ∧
        5 < ((img.data.getD (y * img.width + x) defaultPixel).g : ℤ) -
          max (img.data.getD (y * img.width + x) defaultPixel).r
            (img.data.getD (y * img.width + x) defaultPixel).b
    · rw [if_pos ⟨hx1, hx2, hy1, hy2, hc.1, hc.2.1, hc.2.2⟩, if_pos hc]
    · rw [if_neg (by tauto), if_neg hc]
  · intro j hj
    rw [pass2Impl_getD img hwf j]
    simp only [pass2SpecPixel]
    rw [if_neg (by tauto)]

/-- C4, witness: on the 3×3 buffer `edgeImage3` the amended theorem rewrites
the centre pixel `(200,210,200,255)` to green `min(avgRB, 210) = 200`. -/
theorem c4_witness :
    (pass2Impl edgeImage3).data.getD (1 * edgeImage3.width + 1) defaultPixel =
      ⟨200, 200, 200, 255⟩ := by
  have h := (c4_pass2_interior_despill edgeImage3 rfl).1 1 1
    (by decide) (by decide) (by decide) (by decide)
  rw [h]
  decide

/-- C6, confirmed.  Pass 2 as implemented — the sequential in-place loop
that reads the current alpha from the live buffer but all colour channels
and neighbour alphas from the frozen Pass 1 snapshot — computes exactly the
snapshot-based pointwise reference `pass2Spec`: each output pixel is a
function of the snapshot alone, so the result is deterministic and
independent of traversal order, and no pixel is ever classified from
partially-updated Pass 2 data. -/
theorem c6_pass2_snapshot_refinement (img : Image) (hwf : img.Wf) :
    pass2Impl img = pass2Spec img := by
  have hdl : (pass2Impl img).data.length = img.width * img.height := by
    have h := foldl_pass2Step_length img.data img.width
      (interiorPositions img.width img.height) img.data
    have h2 : (pass2Impl img).data.length = img.data.length := h
    rw [h2, hwf]
  have hsl : (pass2Spec img).data.length = img.width * img.height := by
    simp [pass2Spec]
  have hdata : (pass2Impl img).data = (pass2Spec img).data := by
    apply List.ext_getElem (by rw [hdl, hsl])
    intro i h1 h2
    have hi : i < img.width * img.height := by rw [← hsl]; exact h2
    calc (pass2Impl img).data[i]
        = (pass2Impl img).data.getD i defaultPixel := (List.getD_eq_getElem _ _ h1).symm
      _ = pass2SpecPixel img.data img.width img.height i := pass2Impl_getD img hwf i
      _ = (pass2Spec img).data.getD i defaultPixel := (pass2Spec_getD img i hi).symm
      _ = (pass2Spec img).data[i] := List.getD_eq_getElem _ _ h2
  obtain ⟨w0, h0, d0⟩ := img
  simp only [pass2Impl, pass2Spec] at hdata ⊢
  rw [hdata]

/-- C6, witness: the refinement instantiated on the 4×4 buffer produced by
Pass 1 in the end-to-end scenario. -/
theorem c6_witness : pass2Impl scenario4x4Expected = pass2Spec scenario4x4Expected :=
  c6_pass2_snapshot_refinement scenario4x4Expected rfl

/-- C7, confirmed.  A solid pure-green image of any size comes out with
alpha = 0 at every pixel: `(0,255,0,255)` has `greenStrength = 255 > 80`,
so Pass 1's tier 1 forces its alpha to 0, and Passes 2 and 3 never touch
alpha. -/
theorem c7_solid_green_transparent :
    (∀ w h : ℕ, ∀ p ∈ (applyFilter (solidGreen w h)).data, p.a = 0) ∧
    pass1Pixel ⟨0, 255, 0, 255⟩ = ⟨0, 255, 0, 0⟩ := by
  constructor
  · intro w h
    apply forall_mem_of_getD
    intro j
    have h3 : (applyFilter (solidGreen w h)).data.getD j defaultPixel =
        pass3Pixel ((pass2Impl (pass1 (solidGreen w h))).data.getD j defaultPixel) :=
      getD_map_of_fixed pass3Pixel pass3Pixel_default _ j
    rw [h3, pass3Pixel_a, (pass2Impl_rba (pass1 (solidGreen w h)) j).2.2]
    have h1 : (pass1 (solidGreen w h)).data.getD j defaultPixel =
        pass1Pixel ((solidGreen w h).data.getD j defaultPixel) :=
      getD_map_of_fixed pass1Pixel pass1Pixel_default _ j
    rw [h1]
    have h0 : (solidGreen w h).data.getD j defaultPixel =
        if j < w * h then (⟨0, 255, 0, 255⟩ : Pixel) else defaultPixel :=
      getD_replicate _ _ _
    rw [h0]
    by_cases hj : j < w * h
    · rw [if_pos hj]; decide
    · rw [if_neg hj]; decide
  · decide

/-- C7, witness: the universal statement applied to the 1×1 solid green
image and its single output pixel. -/
theorem c7_witness :
    (⟨0, 255, 0, 0⟩ : Pixel) ∈ (applyFilter (solidGreen 1 1)).data ∧
    (⟨0, 255, 0, 0⟩ : Pixel).a = 0 :=
  ⟨by decide, c7_solid_green_transparent.1 1 1 ⟨0, 255, 0, 0⟩ (by decide)⟩

/-- C9, confirmed.  The promise body of `removeGreenScreen` has exactly two
failure paths: a source that cannot be decoded rejects with the image-load
error, and an unavailable 2D context rejects with the distinct
canvas-context error; in both cases the result is an `error` (no output
image), and the pure model makes a single attempt — nothing is retried. -/
theorem c9_failure_modes :
    (∀ (c : Bool) (t : ℕ),
      removeGreenScreen none c t = Except.error FilterError.imageLoadError) ∧
    (∀ (img : Image) (t : ℕ),
      removeGreenScreen (some img) false t = Except.error FilterError.canvasContextError) ∧
    FilterError.imageLoadError ≠ FilterError.canvasContextError :=
  ⟨fun _ _ => rfl, fun _ _ => rfl, by decide⟩

/-- C10, confirmed.  Across all three passes only the green and alpha
channels are ever written: every output pixel keeps the decoded red and
blue values, and — since Pass 2 and Pass 3 never write alpha — its output
alpha is exactly the alpha Pass 1 assigns (`pass1Pixel`: tier 1 forces 0,
tier 2 stores the clamped `max(0, 255 - greenStrength*3)`, otherwise the
input alpha). -/
theorem c10_frame_channels (img : Image) (j : ℕ) :
    ((applyFilter img).data.getD j defaultPixel).r = (img.data.getD j defaultPixel).r ∧
    ((applyFilter img).data.getD j defaultPixel).b = (img.data.getD j defaultPixel).b ∧
    ((applyFilter img).data.getD j defaultPixel).a =
      (pass1Pixel (img.data.getD j defaultPixel)).a := by
  have h3 : (applyFilter img).data.getD j defaultPixel =
      pass3Pixel ((pass2Impl (pass1 img)).data.getD j defaultPixel) :=
    getD_map_of_fixed pass3Pixel pass3Pixel_default _ j
  have h1 : (pass1 img).data.getD j defaultPixel =
      pass1Pixel (img.data.getD j defaultPixel) :=
    getD_map_of_fixed pass1Pixel pass1Pixel_default _ j
  have h2 := pass2Impl_rba (pass1 img) j
  refine ⟨?_, ?_, ?_⟩
  · rw [h3, pass3Pixel_r, h2.1, h1, pass1Pixel_r]
  · rw [h3, pass3Pixel_b, h2.2.1, h1, pass1Pixel_b]
  · rw [h3, pass3Pixel_a, h2.2.2, h1]

end ChromaKey
